import Mathlib

/-!
A shallow embedding of `binrw_derive/src/backtrace/syntax_highlighting.rs`.

The Rust module walks a struct field's type annotation and the expressions
attached to its attributes with a `syn` visitor, and collects per-line colored
highlight ranges into a `SyntaxInfo` table.

Modelling decisions:
* `proc_macro2::LineColumn` / `Span` become plain records of naturals.  The
  `end` accessor of a span is called `stop` here (`end` is reserved in Lean).
* `HashMap<usize, LineSyntax>` becomes an insertion-ordered association list.
  `entry(k).or_insert_with(default)` followed by `push` becomes `pushHighlight`;
  an `entry` call whose `push` is aborted (the `Verbatim` early `return` inside
  `visit_lit`) becomes `touchLine`.  Only per-line contents are observable
  downstream, and those are independent of the map's iteration order.
* Expressions are modelled by the node shapes the visitor distinguishes:
  literals, path expressions (a path is its list of segment identifiers; the
  leading-colon and generic-argument forms, for which `Path::get_ident` is
  `None` just like for multi-segment paths, are not distinguished), calls,
  method calls, and a catch-all `other` node whose default visitor walks its
  children in order.  Expression attributes (`ExprCall::attrs` etc.), which the
  default visitor also walks, are not modelled: they never occur in the token
  streams this module parses and are orthogonal to every claim.
* A type is modelled by the tree of path-segment identifiers the default
  `visit_type` walk encounters, in visitation order.
* A `TokenStream` is modelled by the outcomes of the only two parses the module
  performs on one: `syn::parse2::<syn::Expr>` and `syn::parse2::<ArgList>`.
* `Vec::sort_by_key` is a stable sort by `|x| x.0.start`; its output is the
  insertion sort by the corresponding `≤` on keys (both are stable, sorted and
  permutations, which determines the result uniquely).
-/

namespace Binrw

/-- `proc_macro2::LineColumn`: 1-based line, 0-based column. -/
structure LineColumn where
  line : Nat
  column : Nat
  deriving DecidableEq, Repr

/-- A source span, as exposed by `Span::start()` / `Span::end()`. -/
structure Span where
  start : LineColumn
  stop : LineColumn
  deriving DecidableEq, Repr

/-- `proc_macro2::Ident`: its text and its span. -/
structure Ident where
  name : String
  span : Span
  deriving DecidableEq, Repr

/-- The `Color` enum of the source. -/
inductive Color where
  | String
  | Char
  | Number
  | Keyword
  | Function
  deriving DecidableEq, Repr

/-- The four `owo_colors::XtermColors` variants the source uses. -/
inductive XtermColors where
  | DollyYellow
  | Heliotrope
  | DarkRose
  | RioGrandeGreen
  deriving DecidableEq, Repr

/-- `Color::into_owo`. -/
def Color.into_owo : Color → XtermColors
  | .String => .DollyYellow
  | .Char | .Number => .Heliotrope
  | .Keyword => .DarkRose
  | .Function => .RioGrandeGreen

/-- `std::ops::Range<usize>` (the `end` field is called `stop` here). -/
structure Range where
  start : Nat
  stop : Nat
  deriving DecidableEq, Repr

/-- One entry of `LineSyntax::highlights`. -/
abbrev Highlight := Range × Color

/-- The `LineSyntax` struct of the source. -/
structure LineSyntax where
  highlights : List Highlight
  deriving DecidableEq, Repr

/-- The `SyntaxInfo` struct: `lines` is a `HashMap<usize, LineSyntax>`,
modelled as an insertion-ordered association list. -/
structure SyntaxInfo where
  lines : List (Nat × LineSyntax)
  deriving DecidableEq, Repr

/-- `lines.entry(line).or_insert_with(LineSyntax::default)` followed by
`.highlights.push(h)`. -/
def entryPush : List (Nat × LineSyntax) → Nat → Highlight → List (Nat × LineSyntax)
  | [], line, h => [(line, ⟨[h]⟩)]
  | (k, ls) :: rest, line, h =>
    if k = line then (k, ⟨ls.highlights ++ [h]⟩) :: rest
    else (k, ls) :: entryPush rest line h

def pushHighlight (si : SyntaxInfo) (line : Nat) (h : Highlight) : SyntaxInfo :=
  ⟨entryPush si.lines line h⟩

/-- `lines.entry(line).or_insert_with(LineSyntax::default)` with no push:
the map gains an empty `LineSyntax` at `line` when the key was absent. -/
def entryTouch : List (Nat × LineSyntax) → Nat → List (Nat × LineSyntax)
  | [], line => [(line, ⟨[]⟩)]
  | (k, ls) :: rest, line =>
    if k = line then (k, ls) :: rest else (k, ls) :: entryTouch rest line

def touchLine (si : SyntaxInfo) (line : Nat) : SyntaxInfo :=
  ⟨entryTouch si.lines line⟩

/-- The highlight list the table currently holds for `line` (empty when the
line is absent).  This is the observable content of one line. -/
def linesAt (si : SyntaxInfo) (line : Nat) : List Highlight :=
  match si.lines.find? (fun p => p.1 == line) with
  | some p => p.2.highlights
  | none => []

/-- The exact identifier texts matched by `is_keyword_ident`, in source order
(including the duplicated `Eq`). -/
def keyword_names : List String :=
  ["Vec", "u8", "u16", "u32", "u64", "u128", "i8", "i16", "i32", "i64", "i128",
   "char", "String", "Default", "Self", "super", "Drop", "Send", "Sync",
   "Sized", "Fn", "FnMut", "FnOnce", "From", "Into", "Iterator",
   "IntoIterator", "Ord", "Eq", "PartialEq", "Eq", "Box", "ToString", "usize",
   "isize", "f32", "f64", "str",
   "align_after", "align_before", "args", "args_raw", "assert", "big",
   "binread", "br", "brw", "binwrite", "bw", "calc", "count", "default",
   "deref_now", "ignore", "import", "import_raw", "is_big", "is_little",
   "little", "magic", "map", "offset", "offset_after", "pad_after",
   "pad_before", "pad_size_to", "parse_with", "postprocess_now", "pre_assert",
   "repr", "restore_position", "return_all_errors", "return_unexpected_error",
   "seek_before", "temp", "try_map", "write_with"]

/-- `is_keyword_ident`: the chain of `ident == "…" || …` comparisons. -/
def is_keyword_ident (ident : Ident) : Bool :=
  keyword_names.any (fun s => ident.name == s)

/-- The `syn::Lit` variants. -/
inductive LitKind where
  | Str
  | ByteStr
  | Byte
  | Char
  | Int
  | Float
  | Bool
  | Verbatim
  deriving DecidableEq, Repr

/-- A literal token: its variant and its span. -/
structure Lit where
  kind : LitKind
  span : Span
  deriving DecidableEq, Repr

/-- A type annotation, modelled by the tree of path-segment identifiers the
default `visit_type` walk encounters, in visitation order. -/
inductive Ty where
  | ident (i : Ident)
  | group (children : List Ty)

/-- A `syn::Expr`, restricted to the shapes the visitor distinguishes.
`other` stands for every remaining expression form; the default visitor walks
its children in order. -/
inductive Expr where
  | lit (l : Lit)
  | path (segments : List Ident)
  | call (func : Expr) (args : List Expr)
  | methodCall (receiver : Expr) (method : Ident) (turbofish : List Ty) (args : List Expr)
  | other (children : List Expr)

/-- `Visitor::visit_lit`.  Note the `entry` call happens before the `match`
on the literal variant, so a single-line `Verbatim` literal still creates the
(empty) line entry before the early `return`. -/
def visit_lit (si : SyntaxInfo) (lit : Lit) : SyntaxInfo :=
  if lit.span.start.line = lit.span.stop.line then
    match lit.kind with
    | .Str | .ByteStr =>
      pushHighlight si lit.span.start.line
        (⟨lit.span.start.column, lit.span.stop.column⟩, Color.String)
    | .Byte | .Char =>
      pushHighlight si lit.span.start.line
        (⟨lit.span.start.column, lit.span.stop.column⟩, Color.Char)
    | .Int | .Float | .Bool =>
      pushHighlight si lit.span.start.line
        (⟨lit.span.start.column, lit.span.stop.column⟩, Color.Number)
    | .Verbatim => touchLine si lit.span.start.line
  else si

/-- `Visitor::visit_ident`. -/
def visit_ident (si : SyntaxInfo) (ident : Ident) : SyntaxInfo :=
  if is_keyword_ident ident then
    pushHighlight si ident.span.start.line
      (⟨ident.span.start.column, ident.span.stop.column⟩, Color.Keyword)
  else si

/-- The default `visit_path` walk: each segment's identifier in order. -/
def visit_idents (si : SyntaxInfo) (segments : List Ident) : SyntaxInfo :=
  segments.foldl visit_ident si

mutual
/-- The default `visit_type` walk restricted to what it observes: every
path-segment identifier, in visitation order. -/
def visit_type (si : SyntaxInfo) : Ty → SyntaxInfo
  | .ident i => visit_ident si i
  | .group children => visit_types si children

def visit_types (si : SyntaxInfo) : List Ty → SyntaxInfo
  | [] => si
  | t :: ts => visit_types (visit_type si t) ts
end

mutual
/-- `visit::visit_expr` with the three overridden methods of `Visitor`:
`visit_lit` (via the default `visit_expr_lit`), `visit_ident` (via the default
`visit_expr_path` / `visit_path`), `visit_expr_method_call` and
`visit_expr_call`. -/
def visit_expr (si : SyntaxInfo) : Expr → SyntaxInfo
  | .lit l => visit_lit si l
  | .path segments => visit_idents si segments
  | .call func args =>
    -- `Visitor::visit_expr_call`: a Function highlight when the callee is a
    -- path with a bare single identifier, then the walk continues into the
    -- callee and each argument.
    let si :=
      match func with
      | .path [ident] =>
        pushHighlight si ident.span.start.line
          (⟨ident.span.start.column, ident.span.stop.column⟩, Color.Function)
      | _ => si
    visit_exprs (visit_expr si func) args
  | .methodCall receiver method turbofish args =>
    -- `Visitor::visit_expr_method_call`: a Function highlight for the method
    -- name, then the receiver, the turbofish and each argument.
    let si :=
      pushHighlight si method.span.start.line
        (⟨method.span.start.column, method.span.stop.column⟩, Color.Function)
    visit_exprs (visit_types (visit_expr si receiver) turbofish) args
  | .other children => visit_exprs si children

def visit_exprs (si : SyntaxInfo) : List Expr → SyntaxInfo
  | [] => si
  | e :: es => visit_exprs (visit_expr si e) es
end

/-- An attribute token stream, modelled by the outcomes of the only two parses
the module ever applies to one: `syn::parse2::<syn::Expr>` (the `visit!`
macro) and `syn::parse2::<ArgList>` (named arguments). `none` is `Err(_)`. -/
structure TokenStream where
  parseExpr : Option Expr
  parseArgList : Option (List (Option Expr))

/-- `parser::meta_types::FieldValue` as used here: only the optional value
expression of each `name = expr` pair is consulted, so a parsed `ArgList` is
modelled as the list of those optional expressions. -/
abbrev ArgList := List (Option Expr)

/-- `parser::CondEndian`. -/
inductive Endianness where
  | Big
  | Little
  deriving DecidableEq, Repr

inductive CondEndian where
  | Inherited
  | Endian (endian : Endianness)
  | Cond (endian : Endianness) (tokens : TokenStream)

/-- `parser::Map` as matched by this module (`Map(_) | Try(_)` visited). -/
inductive Map where
  | None
  | Map (tokens : TokenStream)
  | Try (tokens : TokenStream)

/-- `parser::PassedArgs`. -/
inductive PassedArgs where
  | None
  | List (streams : List TokenStream)
  | Tuple (tokens : TokenStream)
  | Named (streams : List TokenStream)

/-- `parser::read::ReadMode` (only `Calc(_)` is visited). -/
inductive ReadMode where
  | Normal
  | Default
  | Calc (tokens : TokenStream)
  | ParseWith (tokens : TokenStream)

/-- `parser::Condition`. -/
structure Condition where
  condition : TokenStream
  alternate : TokenStream

/-- `parser::AssertionError`. -/
inductive AssertionError where
  | Message (tokens : TokenStream)
  | Error (tokens : TokenStream)

/-- One entry of `field.assertions`. -/
structure Assert where
  condition : TokenStream
  consequent : Option AssertionError

/-- `parser::read::StructField`, restricted to the members this module reads.
`magic` is modelled as the token stream produced by
`magic.into_value().into_match_value()`. -/
structure StructField where
  ty : Ty
  count : Option TokenStream
  offset : Option TokenStream
  pad_before : Option TokenStream
  pad_after : Option TokenStream
  align_before : Option TokenStream
  align_after : Option TokenStream
  seek_before : Option TokenStream
  pad_size_to : Option TokenStream
  offset_after : Option TokenStream
  if_cond : Option Condition
  magic : Option TokenStream
  endian : CondEndian
  map : Map
  args : PassedArgs
  read_mode : ReadMode
  assertions : List Assert
  keyword_spans : List Span

/-- The `visit!` macro: parse the token stream as an expression and walk it;
a parse failure contributes nothing. -/
def visitTS (si : SyntaxInfo) (ts : TokenStream) : SyntaxInfo :=
  match ts.parseExpr with
  | some e => visit_expr si e
  | none => si

def visitOptTS (si : SyntaxInfo) (ts : Option TokenStream) : SyntaxInfo :=
  match ts with
  | some ts => visitTS si ts
  | none => si

/-- `visit_expr_attributes`, slot for slot in source order. -/
def visit_expr_attributes (field : StructField) (si : SyntaxInfo) : SyntaxInfo :=
  let si := visitOptTS si field.count
  let si := visitOptTS si field.offset
  let si := visitOptTS si field.pad_before
  let si := visitOptTS si field.pad_after
  let si := visitOptTS si field.align_before
  let si := visitOptTS si field.align_after
  let si := visitOptTS si field.seek_before
  let si := visitOptTS si field.pad_size_to
  let si := visitOptTS si field.offset_after
  let si :=
    match field.if_cond with
    | some c => visitTS (visitTS si c.condition) c.alternate
    | none => si
  let si := visitOptTS si field.magic
  let si :=
    match field.endian with
    | .Cond _ tokens => visitTS si tokens
    | _ => si
  let si :=
    match field.map with
    | .Map tokens | .Try tokens => visitTS si tokens
    | .None => si
  let si :=
    match field.args with
    | .List streams => streams.foldl visitTS si
    | .Tuple tokens => visitTS si tokens
    | .Named streams =>
      streams.foldl
        (fun si ts =>
          match ts.parseArgList with
          | some fieldValues =>
            fieldValues.foldl
              (fun si value =>
                match value with
                | some e => visit_expr si e
                | none => si)
              si
          | none => si)
        si
    | .None => si
  let si :=
    match field.read_mode with
    | .Calc tokens => visitTS si tokens
    | _ => si
  field.assertions.foldl
    (fun si assert =>
      let si := visitTS si assert.condition
      match assert.consequent with
      | some (.Message err) | some (.Error err) => visitTS si err
      | none => si)
    si

/-- The keyword-span loop of `get_syntax_highlights`: one Keyword highlight
per entry of `field.keyword_spans`, appended after traversal. -/
def addKeywordSpans (si : SyntaxInfo) (spans : List Span) : SyntaxInfo :=
  spans.foldl
    (fun si ks => pushHighlight si ks.start.line
      (⟨ks.start.column, ks.stop.column⟩, Color.Keyword))
    si

/-- The key `sort_by_key(|x| x.0.start)` sorts by. -/
def hlLE (a b : Highlight) : Prop := a.1.start ≤ b.1.start

instance : DecidableRel hlLE := fun a b => Nat.decLe a.1.start b.1.start

/-- `highlights.sort_by_key(|x| x.0.start)`: the stable sort by start column,
realised as insertion sort (stable sorts by one key coincide). -/
def sortLine (hl : List Highlight) : List Highlight :=
  List.insertionSort hlLE hl

/-- The final loop of `get_syntax_highlights`: each line's highlight list is
sorted in place. -/
def sortSyntaxInfo (si : SyntaxInfo) : SyntaxInfo :=
  ⟨si.lines.map (fun p => (p.1, ⟨sortLine p.2.highlights⟩))⟩

/-- Everything `get_syntax_highlights` accumulates before the final sort:
the type walk, the attribute walk, then the keyword spans. -/
def gather_highlights (field : StructField) : SyntaxInfo :=
  addKeywordSpans (visit_expr_attributes field (visit_type ⟨[]⟩ field.ty))
    field.keyword_spans

/-- `get_syntax_highlights`. -/
def get_syntax_highlights (field : StructField) : SyntaxInfo :=
  sortSyntaxInfo (gather_highlights field)

end Binrw

namespace Binrw

theorem linesAt_pushHighlight (si : SyntaxInfo) (L : Nat) (h : Highlight) (l : Nat) :
    linesAt (pushHighlight si L h) l =
      if l = L then linesAt si l ++ [h] else linesAt si l := by
  obtain ⟨lines⟩ := si
  induction lines with
  | nil =>
    by_cases hl : l = L
    · subst hl; simp [linesAt, pushHighlight, entryPush]
    · simp [linesAt, pushHighlight, entryPush, hl, Ne.symm hl]
  | cons p rest ih =>
    obtain ⟨k, ls⟩ := p
    by_cases hk : k = L
    · subst hk
      by_cases hl : l = k
      · subst hl; simp [linesAt, pushHighlight, entryPush]
      · simp [linesAt, pushHighlight, entryPush, hl, Ne.symm hl]
    · by_cases hl : l = k
      · subst hl
        simp [linesAt, pushHighlight, entryPush, Ne.symm hk, hk]
      · have := ih
        simp [linesAt, pushHighlight, entryPush, hk, Ne.symm hl] at this ⊢
        simpa [Ne.symm hl] using this

theorem linesAt_touchLine (si : SyntaxInfo) (L : Nat) (l : Nat) :
    linesAt (touchLine si L) l = linesAt si l := by
  obtain ⟨lines⟩ := si
  induction lines with
  | nil =>
    by_cases hl : l = L
    · subst hl; simp [linesAt, touchLine, entryTouch]
    · simp [linesAt, touchLine, entryTouch, Ne.symm hl]
  | cons p rest ih =>
    obtain ⟨k, ls⟩ := p
    by_cases hk : k = L
    · subst hk; simp [linesAt, touchLine, entryTouch]
    · by_cases hl : l = k
      · subst hl; simp [linesAt, touchLine, entryTouch, hk]
      · have := ih
        simp [linesAt, touchLine, entryTouch, hk, Ne.symm hl] at this ⊢
        simpa [Ne.symm hl] using this

end Binrw

namespace Binrw

/-- Whether the table has an entry (possibly empty) for `line`. -/
def hasLine (si : SyntaxInfo) (line : Nat) : Bool :=
  si.lines.any (fun p => p.1 == line)

theorem keys_touchLine (si : SyntaxInfo) (L : Nat) :
    (touchLine si L).lines.map Prod.fst =
      if hasLine si L then si.lines.map Prod.fst
      else si.lines.map Prod.fst ++ [L] := by
  obtain ⟨lines⟩ := si
  induction lines with
  | nil => simp [touchLine, entryTouch, hasLine]
  | cons p rest ih =>
    obtain ⟨k, ls⟩ := p
    by_cases hk : k = L
    · subst hk; simp [touchLine, entryTouch, hasLine]
    · have ihr := ih
      simp only [touchLine, entryTouch, hasLine, List.any_cons, List.map_cons,
        beq_iff_eq, hk, if_neg hk, Bool.false_or] at ihr ⊢
      by_cases hrest : rest.any (fun p => p.1 == L)
      · simp only [hasLine, hrest, if_pos] at ihr ⊢
        simp [ihr]
      · simp only [hasLine, hrest, if_neg, Bool.false_eq_true, not_false_eq_true] at ihr ⊢
        simp [ihr, hk]

instance : IsTotal Highlight hlLE := ⟨fun a b => Nat.le_total a.1.start b.1.start⟩

instance : IsTrans Highlight hlLE := ⟨fun _ _ _ => Nat.le_trans⟩

theorem sortLine_sorted (hl : List Highlight) : List.Pairwise hlLE (sortLine hl) :=
  List.sorted_insertionSort hlLE hl

theorem filter_orderedInsert (c : Nat) (x : Highlight) (l : List Highlight) :
    (List.orderedInsert hlLE x l).filter (fun h => h.1.start == c) =
      if x.1.start = c then x :: l.filter (fun h => h.1.start == c)
      else l.filter (fun h => h.1.start == c) := by
  induction l with
  | nil =>
    by_cases hx : x.1.start = c <;>
      simp [List.orderedInsert, List.filter_cons, hx]
  | cons b t ih =>
    simp only [List.orderedInsert]
    by_cases hr : hlLE x b
    · by_cases hx : x.1.start = c <;>
        simp [hr, List.filter_cons, hx]
    · have hbx : b.1.start < x.1.start := Nat.lt_of_not_le hr
      by_cases hx : x.1.start = c
      · have hb : ¬ b.1.start = c := by omega
        simp [hr, List.filter_cons, hb, hx, ih]
      · by_cases hb : b.1.start = c <;>
          simp [hr, List.filter_cons, hb, hx, ih]

theorem sortLine_filter (c : Nat) (l : List Highlight) :
    (sortLine l).filter (fun h => h.1.start == c) =
      l.filter (fun h => h.1.start == c) := by
  induction l with
  | nil => rfl
  | cons x t ih =>
    show (List.orderedInsert hlLE x (sortLine t)).filter _ = _
    rw [filter_orderedInsert]
    by_cases hx : x.1.start = c <;> simp [List.filter_cons, hx, ih]

theorem sortLine_perm (l : List Highlight) : (sortLine l).Perm l :=
  List.perm_insertionSort hlLE l

theorem linesAt_addKeywordSpans (spans : List Span) (si : SyntaxInfo) (l : Nat) :
    linesAt (addKeywordSpans si spans) l =
      linesAt si l ++
        (spans.filter (fun ks => ks.start.line == l)).map
          (fun ks => (⟨ks.start.column, ks.stop.column⟩, Color.Keyword)) := by
  induction spans generalizing si with
  | nil => simp [addKeywordSpans]
  | cons ks rest ih =>
    show linesAt (addKeywordSpans (pushHighlight si _ _) rest) l = _
    rw [ih, linesAt_pushHighlight]
    by_cases hl : l = ks.start.line
    · simp [hl, List.filter_cons]
    · simp [hl, List.filter_cons, Ne.symm hl]

theorem linesAt_sortSyntaxInfo (si : SyntaxInfo) (l : Nat) :
    linesAt (sortSyntaxInfo si) l = sortLine (linesAt si l) := by
  obtain ⟨lines⟩ := si
  induction lines with
  | nil => simp [linesAt, sortSyntaxInfo, sortLine, List.insertionSort]
  | cons p rest ih =>
    by_cases hp : p.1 = l
    · simp [linesAt, sortSyntaxInfo, hp]
    · have ihr := ih
      simp only [linesAt, sortSyntaxInfo, List.map_cons, List.find?_cons] at ihr ⊢
      have hb : (p.1 == l) = false := by simp [hp]
      simp [hb] at ihr ⊢
      exact ihr

end Binrw

namespace Binrw

/-! ## Shared concrete inputs -/

/-- A single-line span on line `l` from column `a` to column `b`. -/
def sp (l a b : Nat) : Span := ⟨⟨l, a⟩, ⟨l, b⟩⟩

/-- A field with no attributes, an empty type annotation and no keyword
spans. -/
def blankField : StructField where
  ty := .group []
  count := none
  offset := none
  pad_before := none
  pad_after := none
  align_before := none
  align_after := none
  seek_before := none
  pad_size_to := none
  offset_after := none
  if_cond := none
  magic := none
  endian := .Inherited
  map := .None
  args := .None
  read_mode := .Normal
  assertions := []
  keyword_spans := []

/-- A token stream neither of whose parses succeeds. -/
def badTS : TokenStream := ⟨none, none⟩

/-! ## C1 -/

/-- The field whose only attribute is `calc = Vec(x)`: the callee `Vec` is a
bare identifier that matches the keyword classifier. -/
def fieldC1 : StructField :=
  { blankField with
    read_mode := .Calc ⟨some (.call (.path [⟨"Vec", sp 1 0 3⟩])
      [.path [⟨"x", sp 1 4 5⟩]]), none⟩ }

/-- C1 is false on the code: for `Vec(x)` the callee's span `0..3` receives a
Function highlight from `visit_expr_call` AND a Keyword highlight from the
subsequent walk of the callee path (`visit_ident` fires on `Vec`), so the
output does contain a Keyword highlight at the callee's span. -/
theorem claimC1_counterexample :
    linesAt (get_syntax_highlights fieldC1) 1 =
      [(⟨0, 3⟩, Color.Function), (⟨0, 3⟩, Color.Keyword)] := rfl

/-- C1 amended: for a call whose callee is a bare single identifier matching
the keyword classifier, the visitor records one Function highlight at the
callee's span and then, because it still walks the callee expression, one
Keyword highlight at the same span; call position does not suppress the
identifier classification. -/
theorem claimC1_amended (si : SyntaxInfo) (i : Ident) (args : List Expr)
    (hkw : is_keyword_ident i = true) :
    visit_expr si (.call (.path [i]) args) =
      visit_exprs
        (pushHighlight
          (pushHighlight si i.span.start.line
            (⟨i.span.start.column, i.span.stop.column⟩, Color.Function))
          i.span.start.line
          (⟨i.span.start.column, i.span.stop.column⟩, Color.Keyword))
        args := by
  simp [visit_expr, visit_idents, visit_ident, hkw]

theorem claimC1_amended_witness :
    visit_expr ⟨[]⟩ (.call (.path [⟨"Vec", sp 1 0 3⟩]) []) =
      pushHighlight (pushHighlight ⟨[]⟩ 1 (⟨0, 3⟩, Color.Function)) 1
        (⟨0, 3⟩, Color.Keyword) :=
  (claimC1_amended ⟨[]⟩ ⟨"Vec", sp 1 0 3⟩ [] (by decide)).trans rfl

end Binrw

namespace Binrw

/-! ## C2 -/

/-- C2: a token stream that fails to parse (as an expression, or as an
assignment list for a named argument) contributes zero highlights, and every
other slot is unaffected: for every slot, a field carrying a failing stream
in that slot produces the same `SyntaxInfo` as the field with that slot
absent.  No error is surfaced: `get_syntax_highlights` is total. -/
theorem claimC2_parse_failure_isolated (f : StructField) (ts : TokenStream)
    (e : Endianness) (lrest nrest : List TokenStream) (arest : List Assert)
    (hE : ts.parseExpr = none) (hA : ts.parseArgList = none) :
    (get_syntax_highlights { f with count := some ts } =
      get_syntax_highlights { f with count := none }) ∧
    (get_syntax_highlights { f with offset := some ts } =
      get_syntax_highlights { f with offset := none }) ∧
    (get_syntax_highlights { f with pad_before := some ts } =
      get_syntax_highlights { f with pad_before := none }) ∧
    (get_syntax_highlights { f with pad_after := some ts } =
      get_syntax_highlights { f with pad_after := none }) ∧
    (get_syntax_highlights { f with align_before := some ts } =
      get_syntax_highlights { f with align_before := none }) ∧
    (get_syntax_highlights { f with align_after := some ts } =
      get_syntax_highlights { f with align_after := none }) ∧
    (get_syntax_highlights { f with seek_before := some ts } =
      get_syntax_highlights { f with seek_before := none }) ∧
    (get_syntax_highlights { f with pad_size_to := some ts } =
      get_syntax_highlights { f with pad_size_to := none }) ∧
    (get_syntax_highlights { f with offset_after := some ts } =
      get_syntax_highlights { f with offset_after := none }) ∧
    (get_syntax_highlights { f with if_cond := some ⟨ts, ts⟩ } =
      get_syntax_highlights { f with if_cond := none }) ∧
    (get_syntax_highlights { f with magic := some ts } =
      get_syntax_highlights { f with magic := none }) ∧
    (get_syntax_highlights { f with endian := .Cond e ts } =
      get_syntax_highlights { f with endian := .Inherited }) ∧
    (get_syntax_highlights { f with map := .Map ts } =
      get_syntax_highlights { f with map := .None }) ∧
    (get_syntax_highlights { f with map := .Try ts } =
      get_syntax_highlights { f with map := .None }) ∧
    (get_syntax_highlights { f with args := .List (ts :: lrest) } =
      get_syntax_highlights { f with args := .List lrest }) ∧
    (get_syntax_highlights { f with args := .Tuple ts } =
      get_syntax_highlights { f with args := .None }) ∧
    (get_syntax_highlights { f with args := .Named (ts :: nrest) } =
      get_syntax_highlights { f with args := .Named nrest }) ∧
    (get_syntax_highlights { f with read_mode := .Calc ts } =
      get_syntax_highlights { f with read_mode := .Normal }) ∧
    (get_syntax_highlights { f with assertions := ⟨ts, none⟩ :: arest } =
      get_syntax_highlights { f with assertions := arest }) := by
  refine ⟨?_, ?_, ?_, ?_, ?_, ?_, ?_, ?_, ?_, ?_, ?_, ?_, ?_, ?_, ?_, ?_, ?_,
    ?_, ?_⟩ <;>
    simp [get_syntax_highlights, gather_highlights, visit_expr_attributes,
      visitOptTS, visitTS, hE, hA]

theorem claimC2_witness :
    get_syntax_highlights { blankField with count := some badTS } =
      get_syntax_highlights { blankField with count := none } :=
  (claimC2_parse_failure_isolated blankField badTS .Big [] [] [] rfl rfl).1

end Binrw

namespace Binrw

/-! ## C3 -/

/-- C3: every line of the returned table is non-decreasing by start column,
and it is the stable permutation of the line gathered before sorting: for
every start column, the subsequence of highlights with that start column is
exactly the one discovered, in discovery order. -/
theorem claimC3_sorted_stable (f : StructField) (l : Nat) (hl : LineSyntax)
    (hmem : (l, hl) ∈ (get_syntax_highlights f).lines) :
    List.Pairwise hlLE hl.highlights ∧
      ∃ hl0 : LineSyntax, (l, hl0) ∈ (gather_highlights f).lines ∧
        ∀ c : Nat,
          hl.highlights.filter (fun h => h.1.start == c) =
            hl0.highlights.filter (fun h => h.1.start == c) := by
  have hmem' : (l, hl) ∈
      ((gather_highlights f).lines.map
        (fun p => (p.1, (⟨sortLine p.2.highlights⟩ : LineSyntax)))) := hmem
  rw [List.mem_map] at hmem'
  obtain ⟨⟨l0, hl0⟩, hmem0, heq⟩ := hmem'
  simp only [Prod.mk.injEq] at heq
  obtain ⟨hl1, hl2⟩ := heq
  subst hl1
  refine ⟨?_, ⟨hl0, hmem0, fun c => ?_⟩⟩
  · rw [← hl2]; exact sortLine_sorted hl0.highlights
  · rw [← hl2]; exact sortLine_filter c hl0.highlights

/-- The field whose only attribute is `count = 2`, giving one Number
highlight on line 1. -/
def fieldC3 : StructField :=
  { blankField with count := some ⟨some (.lit ⟨.Int, sp 1 0 1⟩), none⟩ }

theorem claimC3_witness :
    List.Pairwise hlLE [((⟨0, 1⟩ : Range), Color.Number)] ∧
      ∃ hl0 : LineSyntax, (1, hl0) ∈ (gather_highlights fieldC3).lines ∧
        ∀ c : Nat,
          [((⟨0, 1⟩ : Range), Color.Number)].filter (fun h => h.1.start == c) =
            hl0.highlights.filter (fun h => h.1.start == c) :=
  claimC3_sorted_stable fieldC3 1 ⟨[(⟨0, 1⟩, Color.Number)]⟩ (by decide)

end Binrw

namespace Binrw

/-! ## C4 -/

/-- C4: a literal whose span starts and ends on the same line appends exactly
one highlight at that span on that line — String for `Str`/`ByteStr`, Char
for `Byte`/`Char`, Number for `Int`/`Float`/`Bool` — leaving every other line
unchanged; a literal spanning more than one line leaves the table exactly as
it was (and, the embedding being total, no error occurs either way). -/
theorem claimC4_literal_rule (si : SyntaxInfo) (lit : Lit) :
    (lit.span.start.line = lit.span.stop.line → lit.kind ≠ .Verbatim →
      linesAt (visit_lit si lit) lit.span.start.line =
        linesAt si lit.span.start.line ++
          [(⟨lit.span.start.column, lit.span.stop.column⟩,
            match lit.kind with
            | .Str | .ByteStr => Color.String
            | .Byte | .Char => Color.Char
            | _ => Color.Number)] ∧
      (∀ l0, l0 ≠ lit.span.start.line →
        linesAt (visit_lit si lit) l0 = linesAt si l0)) ∧
    (lit.span.start.line ≠ lit.span.stop.line → visit_lit si lit = si) := by
  constructor
  · intro hline hkind
    constructor
    · cases hk : lit.kind <;>
        simp [visit_lit, hline, hk, linesAt_pushHighlight]
      exact absurd hk hkind
    · intro l0 hl0
      cases hk : lit.kind <;>
        simp [visit_lit, hline, hk, linesAt_pushHighlight, hl0, linesAt_touchLine] <;>
        omega
  · intro hline
    simp [visit_lit, hline]

end Binrw

namespace Binrw

/-! ## C5 -/

/-- C5: for `receiver.name(args)` the method-name token is recorded as a
Function highlight — the right-hand side never consults the keyword
classifier for `method` — and the walk then continues into the receiver, the
turbofish and every argument.  The second conjunct instances this on
`foo.map(count)`: the keyword-named method `map` is colored Function while
the keyword argument `count` is still colored Keyword. -/
theorem claimC5_method_call_rule (si : SyntaxInfo) (receiver : Expr)
    (method : Ident) (turbofish : List Ty) (args : List Expr) :
    (visit_expr si (.methodCall receiver method turbofish args) =
      visit_exprs
        (visit_types
          (visit_expr
            (pushHighlight si method.span.start.line
              (⟨method.span.start.column, method.span.stop.column⟩,
                Color.Function))
            receiver)
          turbofish)
        args) ∧
    linesAt
        (visit_expr ⟨[]⟩
          (.methodCall (.path [⟨"foo", sp 1 0 3⟩]) ⟨"map", sp 1 4 7⟩ []
            [.path [⟨"count", sp 1 8 13⟩]]))
        1 =
      [(⟨4, 7⟩, Color.Function), (⟨8, 13⟩, Color.Keyword)] :=
  ⟨rfl, rfl⟩

/-! ## C6 -/

/-- C6: each entry of `keyword_spans` appends exactly one Keyword highlight
(at `start.column..end.column` on `start.line`, with no single-line check and
no deduplication) after everything the traversal gathered for that line, and
the final sort preserves multiplicities, so overlapping or duplicate
highlights all survive into the output. -/
theorem claimC6_keyword_spans_appended (f : StructField) (l : Nat) :
    (linesAt (gather_highlights f) l =
      linesAt (visit_expr_attributes f (visit_type ⟨[]⟩ f.ty)) l ++
        (f.keyword_spans.filter (fun ks => ks.start.line == l)).map
          (fun ks => (⟨ks.start.column, ks.stop.column⟩, Color.Keyword))) ∧
    ∀ h : Highlight,
      (linesAt (get_syntax_highlights f) l).countP (fun x => decide (x = h)) =
        (linesAt (gather_highlights f) l).countP (fun x => decide (x = h)) := by
  refine ⟨linesAt_addKeywordSpans _ _ _, fun h => ?_⟩
  rw [show get_syntax_highlights f = sortSyntaxInfo (gather_highlights f) from rfl,
    linesAt_sortSyntaxInfo]
  exact (sortLine_perm _).countP_eq _

/-! ## C7 -/

/-- The field whose only attribute is a `calc` holding a single-line
`Verbatim` literal on line 5. -/
def fieldC7 : StructField :=
  { blankField with read_mode := .Calc ⟨some (.lit ⟨.Verbatim, sp 5 2 7⟩), none⟩ }

/-- C7 is false on the code in its "no entry" half: a single-line `Verbatim`
literal contributes no highlight, but `visit_lit` calls
`entry(..).or_insert_with(default)` before matching on the literal, so the
table does gain an (empty) entry for the literal's line — unlike a multi-line
literal, which leaves the table untouched. -/
theorem claimC7_counterexample :
    (get_syntax_highlights fieldC7).lines = [(5, ⟨[]⟩)] := rfl

/-- C7 amended: a single-line `Verbatim` literal contributes no highlight to
any line, but does create an empty entry for its start line when that line is
not yet present (the key list gains exactly that line). -/
theorem claimC7_amended (si : SyntaxInfo) (lit : Lit)
    (hkind : lit.kind = .Verbatim)
    (hline : lit.span.start.line = lit.span.stop.line) :
    (∀ l, linesAt (visit_lit si lit) l = linesAt si l) ∧
    (visit_lit si lit).lines.map Prod.fst =
      (if hasLine si lit.span.start.line then si.lines.map Prod.fst
       else si.lines.map Prod.fst ++ [lit.span.start.line]) := by
  constructor
  · intro l
    simp [visit_lit, hline, hkind, linesAt_touchLine]
  · simp [visit_lit, hline, hkind, keys_touchLine]

theorem claimC7_amended_witness :
    (∀ l, linesAt (visit_lit ⟨[]⟩ ⟨.Verbatim, sp 5 2 7⟩) l = linesAt ⟨[]⟩ l) ∧
    (visit_lit ⟨[]⟩ ⟨.Verbatim, sp 5 2 7⟩).lines.map Prod.fst =
      (if hasLine ⟨[]⟩ 5 then (⟨[]⟩ : SyntaxInfo).lines.map Prod.fst
       else (⟨[]⟩ : SyntaxInfo).lines.map Prod.fst ++ [5]) :=
  claimC7_amended ⟨[]⟩ ⟨.Verbatim, sp 5 2 7⟩ rfl rfl

end Binrw

namespace Binrw

/-! ## C8 -/

/-- C8 is false on the code: `Color::into_owo` sends both `Char` and `Number`
to `XtermColors::Heliotrope`, so the five categories are rendered with only
four distinguishable colors. -/
theorem claimC8_counterexample :
    Color.into_owo .Char = Color.into_owo .Number ∧ Color.Char ≠ Color.Number := by
  decide

/-- C8 amended: `into_owo` identifies exactly `Char` and `Number` (both
purple per the source comments) and separates every other pair of
categories. -/
theorem claimC8_amended (c1 c2 : Color) :
    Color.into_owo c1 = Color.into_owo c2 ↔
      (c1 = c2 ∨
        ((c1 = .Char ∨ c1 = .Number) ∧ (c2 = .Char ∨ c2 = .Number))) := by
  cases c1 <;> cases c2 <;> decide

/-! ## C9 -/

/-- C9: a fixed endianness (inherited or a plain `Endian`) contributes
nothing — the result agrees with the field whose endianness slot is
`Inherited` — while a conditional endianness visits exactly its expression
(shown on an otherwise blank field, for a stream parsing to `e`). -/
theorem claimC9_endian_slot (f : StructField) (si : SyntaxInfo)
    (endianness : Endianness) (ts : TokenStream) (e : Expr) :
    (get_syntax_highlights { f with endian := .Endian endianness } =
      get_syntax_highlights { f with endian := .Inherited }) ∧
    (visit_expr_attributes { blankField with endian := .Cond endianness ⟨some e, none⟩ } si =
      visit_expr si e) ∧
    (visit_expr_attributes { blankField with endian := .Endian endianness } si = si) ∧
    (visit_expr_attributes { blankField with endian := .Cond endianness ts } si =
      visitTS si ts) := by
  refine ⟨?_, ?_, ?_, ?_⟩ <;>
    simp [get_syntax_highlights, gather_highlights, visit_expr_attributes,
      visitOptTS, visitTS, blankField]

/-! ## C10 -/

/-- C10: `get_syntax_highlights` is a total function of the field descriptor:
it returns a `SyntaxInfo` for every input (every parse failure was consumed
as an `Option`, every recursion terminates, and the embedding has no partial
operation to abort on). -/
theorem claimC10_total (f : StructField) :
    ∃ si : SyntaxInfo, get_syntax_highlights f = si :=
  ⟨get_syntax_highlights f, rfl⟩

end Binrw
